import Mathlib

/-!
# Verification of the Autonomous Fund CLI binary decoders

A shallow embedding of `cli/fund_utils.py` (the MultiversX-style nested
binary decoders and the bech32 address codec) together with proofs of the
spec's testable properties.

Modelling conventions:
* Python `bytes` values are `List Nat` (each element intended `< 256`;
  theorems carry that bound as a hypothesis where it matters).
* Python text (`str`) values are `List Nat` of Unicode code points.
* A Python slice `data[off : off + k]` is `pySlice data off k`
  (`(data.drop off).take k`, which like Python silently clips at the end).
* Python indexing `data[i]`, which raises `IndexError` out of range, is
  `data.get? i` with the `none` case mapped to `DecodeError.indexError`.
* `bytes.decode("utf-8")`, which raises `UnicodeDecodeError` on invalid
  input, is modelled by a strict UTF-8 decoder returning `Option`, with the
  `none` case mapped to `DecodeError.invalidUtf8`.
* Fallible decoders return `Except DecodeError`; total ones return plain
  values, exactly as in the source (which raises no error on short reads).
-/

/-- Errors a decode can raise.  `invalidUtf8` models Python's
`UnicodeDecodeError` (the spec's `DecodeError::InvalidUtf8`); `indexError`
models `IndexError` from direct indexing past the end of the buffer. -/
inductive DecodeError where
  | invalidUtf8
  | indexError
deriving DecidableEq, Repr

/-! ## Bytes: slices, big-endian integers, minimal encodings -/

/-- Python slice `data[off : off + len]`: clips silently at the end. -/
def pySlice (data : List Nat) (off len : Nat) : List Nat :=
  (data.drop off).take len

/-- `int.from_bytes(l, "big")`: big-endian interpretation of a byte list. -/
def beToNat (l : List Nat) : Nat :=
  l.foldl (fun acc b => 256 * acc + b) 0

/-- `n.to_bytes(k, "big")`: the `k`-byte big-endian encoding of `n`
(well-defined for `n < 256 ^ k`; otherwise it keeps the low `k` bytes). -/
def beBytes : Nat → Nat → List Nat
  | 0, _ => []
  | k + 1, n => beBytes k (n / 256) ++ [n % 256]

/-- Fuel-driven minimal big-endian encoding loop (empty for zero). -/
def minBytesLoop : Nat → Nat → List Nat
  | 0, _ => []
  | fuel + 1, n => if n = 0 then [] else minBytesLoop fuel (n / 256) ++ [n % 256]

/-- The minimal big-endian byte encoding of `n` (empty for `n = 0`). -/
def minBytes (n : Nat) : List Nat :=
  minBytesLoop n n

/-! ## Scalar codec (from `fund_utils.py`) -/

/-- `decode_top_level_u64`: big-endian value of the entire buffer, no
framing, no width or range check. -/
def decode_top_level_u64 (data : List Nat) : Nat :=
  beToNat data

/-- `decode_nested_u64`: reads `data[offset : offset + 8]` big-endian and
advances the offset by 8.  (The Python source does no bound check: a short
slice silently yields a short value.) -/
def decode_nested_u64 (data : List Nat) (offset : Nat) : Nat × Nat :=
  (beToNat (pySlice data offset 8), offset + 8)

/-- `decode_nested_biguint`: 4-byte big-endian length, then that many value
bytes; zero length yields value 0. -/
def decode_nested_biguint (data : List Nat) (offset : Nat) : Nat × Nat :=
  let length := beToNat (pySlice data offset 4)
  let off2 := offset + 4
  let val := if length > 0 then beToNat (pySlice data off2 length) else 0
  (val, off2 + length)

/-! ## Spec-side encodings (the buffers the claims build) -/

/-- The buffer built per the spec for a nested BigUint: 4-byte big-endian
length of the minimal value bytes, then those bytes. -/
def encodeNestedBiguint (v : Nat) : List Nat :=
  beBytes 4 (minBytes v).length ++ minBytes v

/-! ## UTF-8 (the strict codec behind Python's `bytes.decode("utf-8")`) -/

/-- A Unicode scalar value: in range and not a surrogate. -/
def ScalarValue (c : Nat) : Prop :=
  c < 0x110000 ∧ ¬(0xD800 ≤ c ∧ c < 0xE000)

instance (c : Nat) : Decidable (ScalarValue c) := by
  unfold ScalarValue; infer_instance

/-- The UTF-8 byte sequence of one scalar value. -/
def utf8EncodeChar (c : Nat) : List Nat :=
  if c < 0x80 then [c]
  else if c < 0x800 then [0xC0 + c / 64, 0x80 + c % 64]
  else if c < 0x10000 then [0xE0 + c / 4096, 0x80 + c / 64 % 64, 0x80 + c % 64]
  else [0xF0 + c / 262144, 0x80 + c / 4096 % 64, 0x80 + c / 64 % 64, 0x80 + c % 64]

/-- The UTF-8 byte sequence of a list of scalar values. -/
def utf8Encode : List Nat → List Nat
  | [] => []
  | c :: cs => utf8EncodeChar c ++ utf8Encode cs

/-- Strict UTF-8: decode one scalar value from the front of `l`, returning
it with the number of bytes consumed; `none` on any malformed sequence
(stray continuation, overlong form, surrogate, out of range, truncated). -/
def utf8DecodeChar? (l : List Nat) : Option (Nat × Nat) :=
  match l with
  | [] => none
  | b0 :: rest =>
    if b0 < 0x80 then some (b0, 1)
    else if b0 < 0xC2 then none
    else if b0 < 0xE0 then
      match rest with
      | b1 :: _ =>
        if 0x80 ≤ b1 ∧ b1 < 0xC0 then some ((b0 - 0xC0) * 64 + (b1 - 0x80), 2)
        else none
      | [] => none
    else if b0 < 0xF0 then
      match rest with
      | b1 :: b2 :: _ =>
        if 0x80 ≤ b1 ∧ b1 < 0xC0 ∧ 0x80 ≤ b2 ∧ b2 < 0xC0 then
          if 0x800 ≤ (b0 - 0xE0) * 4096 + (b1 - 0x80) * 64 + (b2 - 0x80) ∧
              ¬(0xD800 ≤ (b0 - 0xE0) * 4096 + (b1 - 0x80) * 64 + (b2 - 0x80) ∧
                (b0 - 0xE0) * 4096 + (b1 - 0x80) * 64 + (b2 - 0x80) < 0xE000) then
            some ((b0 - 0xE0) * 4096 + (b1 - 0x80) * 64 + (b2 - 0x80), 3)
          else none
        else none
      | _ => none
    else if b0 < 0xF5 then
      match rest with
      | b1 :: b2 :: b3 :: _ =>
        if 0x80 ≤ b1 ∧ b1 < 0xC0 ∧ 0x80 ≤ b2 ∧ b2 < 0xC0 ∧ 0x80 ≤ b3 ∧ b3 < 0xC0 then
          if 0x10000 ≤ (b0 - 0xF0) * 262144 + (b1 - 0x80) * 4096 +
                (b2 - 0x80) * 64 + (b3 - 0x80) ∧
              (b0 - 0xF0) * 262144 + (b1 - 0x80) * 4096 +
                (b2 - 0x80) * 64 + (b3 - 0x80) < 0x110000 then
            some ((b0 - 0xF0) * 262144 + (b1 - 0x80) * 4096 +
              (b2 - 0x80) * 64 + (b3 - 0x80), 4)
          else none
        else none
      | _ => none
    else none

/-- Fuel-driven strict UTF-8 decode of a whole byte list into scalar
values; `none` as soon as one sequence is malformed. -/
def utf8DecodeLoop : Nat → List Nat → Option (List Nat)
  | 0, l => if l = [] then some [] else none
  | fuel + 1, l =>
    if l = [] then some []
    else
      match utf8DecodeChar? l with
      | none => none
      | some (c, k) =>
        match utf8DecodeLoop fuel (l.drop k) with
        | none => none
        | some cs => some (c :: cs)

/-- Strict UTF-8 decode of a byte list (the model of `.decode("utf-8")`). -/
def utf8Decode (l : List Nat) : Option (List Nat) :=
  utf8DecodeLoop l.length l

/-! ## Address codec: bech32 with the fixed human-readable part `claw`

`pubkey_to_bech32` calls the external `bech32` library
(`convertbits(list(pubkey), 8, 5)` then `bech32_encode("claw", ...)`).
The spec treats that library as an external encoding primitive with a
documented contract ("8-bit bytes into 5-bit groups, most-significant-bit
first, zero-padded at the end; fixed human-readable part, then a data part
over the bech32 character set, then a 6-group checksum"), so the library
functions are modelled here from that contract and the reference bech32
algorithm. -/

def bitVal (b : Bool) : Nat := if b then 1 else 0

/-- One byte as its 8 bits, most significant first. -/
def byteToBits (b : Nat) : List Bool :=
  [b.testBit 7, b.testBit 6, b.testBit 5, b.testBit 4,
   b.testBit 3, b.testBit 2, b.testBit 1, b.testBit 0]

def bytesToBits : List Nat → List Bool
  | [] => []
  | b :: bs => byteToBits b ++ bytesToBits bs

/-- The value of 5 bits, most significant first. -/
def nat5 (b1 b2 b3 b4 b5 : Bool) : Nat :=
  16 * bitVal b1 + 8 * bitVal b2 + 4 * bitVal b3 + 2 * bitVal b4 + bitVal b5

/-- Regroup a bit list into 5-bit groups, zero-padding the final group. -/
def group5 : List Bool → List Nat
  | b1 :: b2 :: b3 :: b4 :: b5 :: rest => nat5 b1 b2 b3 b4 b5 :: group5 rest
  | [] => []
  | [b1] => [nat5 b1 false false false false]
  | [b1, b2] => [nat5 b1 b2 false false false]
  | [b1, b2, b3] => [nat5 b1 b2 b3 false false]
  | [b1, b2, b3, b4] => [nat5 b1 b2 b3 b4 false]

/-- Modelled from the spec: the external bech32 library's
`convertbits(data, 8, 5)` — bit-packing, most-significant-bit first,
zero-padded at the end (total here; the library's range check on input
values is carried as a `< 256` hypothesis by the theorems). -/
def convertbits (data : List Nat) : List Nat :=
  group5 (bytesToBits data)

/-- The bech32 data character set `qpzry9x8gf2tvdw0s3jn54khce6mua7l`. -/
def bech32Charset : List Char :=
  ['q', 'p', 'z', 'r', 'y', '9', 'x', '8', 'g', 'f', '2', 't', 'v', 'd', 'w', '0',
   's', '3', 'j', 'n', '5', '4', 'k', 'h', 'c', 'e', '6', 'm', 'u', 'a', '7', 'l']

/-- `CHARSET[d]` (always called with `d < 32`; the default is never hit). -/
def bech32CharAt (d : Nat) : Char :=
  bech32Charset.getD d 'q'

/-- One step of the bech32 checksum polymod (the reference algorithm's
inner loop, unrolled over the five generator constants). -/
def bech32PolymodStep (chk value : Nat) : Nat :=
  let top := chk >>> 25
  let c0 := ((chk &&& 0x1ffffff) <<< 5) ^^^ value
  let c1 := if top &&& 1 = 1 then c0 ^^^ 0x3b6a57b2 else c0
  let c2 := if (top >>> 1) &&& 1 = 1 then c1 ^^^ 0x26508e6d else c1
  let c3 := if (top >>> 2) &&& 1 = 1 then c2 ^^^ 0x1ea119fa else c2
  let c4 := if (top >>> 3) &&& 1 = 1 then c3 ^^^ 0x3d4233dd else c3
  if (top >>> 4) &&& 1 = 1 then c4 ^^^ 0x2a1462b3 else c4

def bech32Polymod (values : List Nat) : Nat :=
  values.foldl bech32PolymodStep 1

/-- `bech32_hrp_expand`: high bits of each character, a zero, low bits. -/
def bech32HrpExpand (hrp : List Nat) : List Nat :=
  hrp.map (fun x => x >>> 5) ++ [0] ++ hrp.map (fun x => x &&& 31)

/-- `bech32_create_checksum`: six 5-bit checksum groups. -/
def bech32CreateChecksum (hrp : List Nat) (data : List Nat) : List Nat :=
  let pm := bech32Polymod (bech32HrpExpand hrp ++ data ++ [0, 0, 0, 0, 0, 0]) ^^^ 1
  [(pm >>> 25) &&& 31, (pm >>> 20) &&& 31, (pm >>> 15) &&& 31,
   (pm >>> 10) &&& 31, (pm >>> 5) &&& 31, pm &&& 31]

/-- `bech32_encode(hrp, data)`: the human-readable part, the separator `1`,
then the data and checksum groups through the character set. -/
def bech32_encode (hrp : String) (data : List Nat) : String :=
  String.mk (hrp.toList ++ '1' ::
    (data ++ bech32CreateChecksum (hrp.toList.map Char.toNat) data).map bech32CharAt)

/-- `pubkey_to_bech32`: 32-byte public key to a `claw1...` address.  This
models the canonical branch (bech32 library importable); the source's
`except ImportError` hex fallback is a distinct environment-dependent path
outside this embedding. -/
def pubkey_to_bech32 (pubkey_bytes : List Nat) : String :=
  bech32_encode "claw" (convertbits pubkey_bytes)

def natOfBits (l : List Bool) : Nat :=
  l.foldl (fun acc b => 2 * acc + bitVal b) 0

/-- The 5 bits of a group value, most significant first. -/
def bits5 (g : Nat) : List Bool :=
  [g.testBit 4, g.testBit 3, g.testBit 2, g.testBit 1, g.testBit 0]

def bitsOfGroups : List Nat → List Bool
  | [] => []
  | g :: gs => bits5 g ++ bitsOfGroups gs

/-! ## Remaining scalar decoders (from `fund_utils.py`) -/

/-- `decode_nested_buffer`: 4-byte big-endian length, then that many bytes
decoded as UTF-8 text (Python raises `UnicodeDecodeError` on invalid
input; here that is `Except.error .invalidUtf8`). -/
def decode_nested_buffer (data : List Nat) (offset : Nat) :
    Except DecodeError (List Nat × Nat) :=
  let length := beToNat (pySlice data offset 4)
  let off2 := offset + 4
  match utf8Decode (pySlice data off2 length) with
  | some text => .ok (text, off2 + length)
  | none => .error .invalidUtf8

/-- `decode_nested_address`: 32 raw bytes rendered through the address
codec; advances the offset by 32. -/
def decode_nested_address (data : List Nat) (offset : Nat) : String × Nat :=
  (pubkey_to_bech32 (pySlice data offset 32), offset + 32)

/-- `decode_nested_bool`: `bool(data[offset])` — one byte, nonzero means
true; indexing past the end raises `IndexError`. -/
def decode_nested_bool (data : List Nat) (offset : Nat) :
    Except DecodeError (Bool × Nat) :=
  match data.get? offset with
  | some b => .ok (b != 0, offset + 1)
  | none => .error .indexError

/-- The buffer built per the spec for a nested text field: 4-byte
big-endian byte length, then the UTF-8 bytes. -/
def encodeNestedBuffer (cs : List Nat) : List Nat :=
  beBytes 4 (utf8Encode cs).length ++ utf8Encode cs

/-! ## Record decoders (from `fund_utils.py`) -/

/-- Proposal status: `STATUS_MAP` values plus the `f"Unknown({b})"`
fallback, modelled as an explicit variant carrying the byte. -/
inductive ProposalStatus where
  | Open
  | Passed
  | Executable
  | Executed
  | Failed
  | Cancelled
  | Unknown (b : Nat)
deriving DecidableEq, Repr

/-- `STATUS_MAP.get(status_byte, f"Unknown({status_byte})")`. -/
def statusOfByte (b : Nat) : ProposalStatus :=
  if b = 0 then .Open
  else if b = 1 then .Passed
  else if b = 2 then .Executable
  else if b = 3 then .Executed
  else if b = 4 then .Failed
  else if b = 5 then .Cancelled
  else .Unknown b

/-- Vote direction: `VOTE_DIR_MAP` values plus the `Unknown` fallback. -/
inductive VoteDirection where
  | Yes
  | No
  | Unknown (b : Nat)
deriving DecidableEq, Repr

/-- `VOTE_DIR_MAP.get(dir_byte, f"Unknown({dir_byte})")`. -/
def dirOfByte (b : Nat) : VoteDirection :=
  if b = 0 then .Yes
  else if b = 1 then .No
  else .Unknown b

/-- The decoded Proposal record (the source's dict, with fixed fields). -/
structure Proposal where
  id : Nat
  proposer : String
  description : List Nat
  receiver : String
  amount : Nat
  status : ProposalStatus
  yes_votes : Nat
  no_votes : Nat
  created_at : Nat
  passed_at : Nat
  bulletin_post_id : Nat
deriving DecidableEq, Repr

/-- The decoded VoteRecord (the source's dict, with fixed fields). -/
structure VoteRecord where
  voter : String
  direction : VoteDirection
  weight : Nat
deriving DecidableEq, Repr

/-- `decode_proposal`: the 11 fields in fixed order, threading the cursor. -/
def decode_proposal (data : List Nat) (off0 : Nat) :
    Except DecodeError (Proposal × Nat) :=
  let (idv, off1) := decode_nested_u64 data off0
  let (proposer, off2) := decode_nested_address data off1
  match decode_nested_buffer data off2 with
  | .error e => .error e
  | .ok (description, off3) =>
    let (receiver, off4) := decode_nested_address data off3
    let (amount, off5) := decode_nested_biguint data off4
    match data.get? off5 with
    | none => .error .indexError
    | some sb =>
      let (yes_votes, off6) := decode_nested_biguint data (off5 + 1)
      let (no_votes, off7) := decode_nested_biguint data off6
      let (created_at, off8) := decode_nested_u64 data off7
      let (passed_at, off9) := decode_nested_u64 data off8
      let (bulletin_post_id, off10) := decode_nested_u64 data off9
      .ok ({ id := idv, proposer := proposer, description := description,
             receiver := receiver, amount := amount, status := statusOfByte sb,
             yes_votes := yes_votes, no_votes := no_votes,
             created_at := created_at, passed_at := passed_at,
             bulletin_post_id := bulletin_post_id }, off10)

/-- `decode_vote_record`: voter, direction byte, weight, in fixed order. -/
def decode_vote_record (data : List Nat) (off0 : Nat) :
    Except DecodeError (VoteRecord × Nat) :=
  let (voter, off1) := decode_nested_address data off0
  match data.get? off1 with
  | none => .error .indexError
  | some db =>
    let (weight, off2) := decode_nested_biguint data (off1 + 1)
    .ok ({ voter := voter, direction := dirOfByte db, weight := weight }, off2)

/-- The buffer built per the spec for one VoteRecord: 32 voter bytes, one
direction byte, the length-framed weight. -/
def encodeVoteRecordFields (voter : List Nat) (dir weight : Nat) : List Nat :=
  voter ++ [dir] ++ encodeNestedBiguint weight

/-- The buffer built per the spec for one Proposal: the 11 fields in the
specified order and widths. -/
def encodeProposalFields (idv : Nat) (proposer desc receiver : List Nat)
    (amount statusByte yesv nov created passed bulletin : Nat) : List Nat :=
  beBytes 8 idv ++ proposer ++ encodeNestedBuffer desc ++ receiver ++
  encodeNestedBiguint amount ++ [statusByte] ++ encodeNestedBiguint yesv ++
  encodeNestedBiguint nov ++ beBytes 8 created ++ beBytes 8 passed ++
  beBytes 8 bulletin

instance {e a : Type} [DecidableEq e] [DecidableEq a] : DecidableEq (Except e a) := fun x y =>
  match x, y with
  | .ok u, .ok v =>
    if h : u = v then isTrue (by rw [h])
    else isFalse (fun hc => by injection hc; contradiction)
  | .error u, .error v =>
    if h : u = v then isTrue (by rw [h])
    else isFalse (fun hc => by injection hc; contradiction)
  | .ok _, .error _ => isFalse (fun hc => by injection hc)
  | .error _, .ok _ => isFalse (fun hc => by injection hc)

/-! ## Basic byte lemmas -/

theorem beToNat_append_singleton (l : List Nat) (b : Nat) :
    beToNat (l ++ [b]) = 256 * beToNat l + b := by
  simp [beToNat, List.foldl_append]

theorem beBytes_length (k n : Nat) : (beBytes k n).length = k := by
  induction k generalizing n with
  | zero => rfl
  | succ k ih => simp [beBytes, ih]

theorem beToNat_beBytes (k n : Nat) : beToNat (beBytes k n) = n % 256 ^ k := by
  induction k generalizing n with
  | zero => simp [beBytes, beToNat, Nat.mod_one]
  | succ k ih =>
    rw [beBytes, beToNat_append_singleton, ih, pow_succ']
    have hdvd : (256 : Nat) ∣ 256 * 256 ^ k := ⟨256 ^ k, rfl⟩
    rw [← Nat.mod_mul_right_div_self, ← Nat.mod_mod_of_dvd n hdvd]
    exact Nat.div_add_mod (n % (256 * 256 ^ k)) 256

theorem beToNat_beBytes_of_lt {k n : Nat} (h : n < 256 ^ k) :
    beToNat (beBytes k n) = n := by
  rw [beToNat_beBytes, Nat.mod_eq_of_lt h]

theorem minBytesLoop_spec (fuel n : Nat) (h : n ≤ fuel) :
    beToNat (minBytesLoop fuel n) = n ∧
    (minBytesLoop fuel n = [] ↔ n = 0) := by
  induction fuel generalizing n with
  | zero =>
    interval_cases n
    simp [minBytesLoop, beToNat]
  | succ fuel ih =>
    by_cases hn : n = 0
    · subst hn; simp [minBytesLoop, beToNat]
    · have hdiv : n / 256 ≤ fuel := by
        have : n / 256 < n := Nat.div_lt_self (Nat.pos_of_ne_zero hn) (by omega)
        omega
      have := ih (n / 256) hdiv
      constructor
      · rw [minBytesLoop]
        simp only [hn, if_false]
        rw [beToNat_append_singleton, this.1]
        omega
      · rw [minBytesLoop]
        simp [hn]

theorem beToNat_minBytes (n : Nat) : beToNat (minBytes n) = n :=
  (minBytesLoop_spec n n le_rfl).1

theorem minBytes_eq_nil_iff (n : Nat) : minBytes n = [] ↔ n = 0 :=
  (minBytesLoop_spec n n le_rfl).2

/-! ## Cursor lemmas: decoding a known encoding at a known offset -/

theorem pySlice_of_drop {data : List Nat} (enc rest : List Nat) {off w : Nat}
    (h : data.drop off = enc ++ rest) (hw : enc.length = w) :
    pySlice data off w = enc := by
  rw [pySlice, h, ← hw, List.take_left]

theorem drop_shift {data : List Nat} (enc rest : List Nat) {off : Nat}
    (h : data.drop off = enc ++ rest) :
    data.drop (off + enc.length) = rest := by
  rw [← List.drop_drop, h, List.drop_left]

theorem decode_nested_u64_drop {data : List Nat} {off n : Nat} {rest : List Nat}
    (h : data.drop off = beBytes 8 n ++ rest) (hn : n < 2 ^ 64) :
    decode_nested_u64 data off = (n, off + 8) := by
  have h8 : n < 256 ^ 8 := lt_of_lt_of_eq hn (by norm_num)
  rw [decode_nested_u64, pySlice_of_drop (beBytes 8 n) rest h (beBytes_length 8 n),
    beToNat_beBytes_of_lt h8]

theorem decode_nested_biguint_drop {data : List Nat} {off v : Nat} {rest : List Nat}
    (h : data.drop off = encodeNestedBiguint v ++ rest)
    (hlen : (minBytes v).length < 2 ^ 32) :
    decode_nested_biguint data off = (v, off + (encodeNestedBiguint v).length) := by
  have hlen' : (minBytes v).length < 256 ^ 4 := lt_of_lt_of_eq hlen (by norm_num)
  have h1 : data.drop off = beBytes 4 (minBytes v).length ++ (minBytes v ++ rest) := by
    simpa [encodeNestedBiguint, List.append_assoc] using h
  have hL : pySlice data off 4 = beBytes 4 (minBytes v).length :=
    pySlice_of_drop _ _ h1 (beBytes_length 4 _)
  have hd4 : data.drop (off + 4) = minBytes v ++ rest := by
    have := drop_shift (beBytes 4 (minBytes v).length) (minBytes v ++ rest) h1
    rwa [beBytes_length] at this
  have hV : pySlice data (off + 4) (minBytes v).length = minBytes v :=
    pySlice_of_drop _ _ hd4 rfl
  have hval : (if (minBytes v).length > 0 then beToNat (minBytes v) else 0) = v := by
    by_cases hz : (minBytes v).length > 0
    · simp [hz, beToNat_minBytes]
    · have hnil : minBytes v = [] := List.length_eq_zero.mp (by omega)
      rw [if_neg hz]
      exact ((minBytes_eq_nil_iff v).mp hnil).symm
  simp only [decode_nested_biguint, hL, beToNat_beBytes_of_lt hlen', hV, hval]
  simp [encodeNestedBiguint, beBytes_length, Nat.add_assoc]

/-! ## UTF-8 codec lemmas -/

theorem utf8EncodeChar_length_pos (c : Nat) : 1 ≤ (utf8EncodeChar c).length := by
  rw [utf8EncodeChar]
  split_ifs <;> simp

theorem utf8DecodeChar?_encode (c : Nat) (hc : ScalarValue c) (rest : List Nat) :
    utf8DecodeChar? (utf8EncodeChar c ++ rest) =
      some (c, (utf8EncodeChar c).length) := by
  obtain ⟨h1, h2⟩ := hc
  by_cases ha : c < 0x80
  · simp only [utf8EncodeChar, if_pos ha, List.cons_append, List.nil_append]
    simp [utf8DecodeChar?, ha]
  · by_cases hb : c < 0x800
    · simp only [utf8EncodeChar, if_neg ha, if_pos hb, List.cons_append, List.nil_append]
      simp only [utf8DecodeChar?]
      rw [if_neg (by omega), if_neg (by omega), if_pos (by omega), if_pos (by omega)]
      simp only [Option.some.injEq, Prod.mk.injEq, List.length_cons, List.length_nil,
        and_true, true_and]
      omega
    · by_cases hd : c < 0x10000
      · simp only [utf8EncodeChar, if_neg ha, if_neg hb, if_pos hd, List.cons_append,
          List.nil_append]
        simp only [utf8DecodeChar?]
        rw [if_neg (by omega), if_neg (by omega), if_neg (by omega), if_pos (by omega),
          if_pos (by omega), if_pos (by omega)]
        simp only [Option.some.injEq, Prod.mk.injEq, List.length_cons, List.length_nil,
          and_true, true_and]
        omega
      · simp only [utf8EncodeChar, if_neg ha, if_neg hb, if_neg hd, List.cons_append,
          List.nil_append]
        simp only [utf8DecodeChar?]
        rw [if_neg (by omega), if_neg (by omega), if_neg (by omega), if_neg (by omega),
          if_pos (by omega), if_pos (by omega), if_pos (by omega)]
        simp only [Option.some.injEq, Prod.mk.injEq, List.length_cons, List.length_nil,
          and_true, true_and]
        omega

theorem utf8Encode_cons (c : Nat) (cs : List Nat) :
    utf8Encode (c :: cs) = utf8EncodeChar c ++ utf8Encode cs := rfl

theorem utf8DecodeLoop_succ (fuel : Nat) (l : List Nat) :
    utf8DecodeLoop (fuel + 1) l =
      if l = [] then some []
      else
        match utf8DecodeChar? l with
        | none => none
        | some (c, k) =>
          match utf8DecodeLoop fuel (l.drop k) with
          | none => none
          | some cs => some (c :: cs) := rfl

theorem utf8DecodeLoop_encode (cs : List Nat) (h : ∀ c ∈ cs, ScalarValue c)
    (fuel : Nat) (hf : (utf8Encode cs).length ≤ fuel) :
    utf8DecodeLoop fuel (utf8Encode cs) = some cs := by
  induction cs generalizing fuel with
  | nil => cases fuel <;> simp [utf8Encode, utf8DecodeLoop]
  | cons c cs ih =>
    have hc : ScalarValue c := h c (by simp)
    have hcs : ∀ x ∈ cs, ScalarValue x := fun x hx => h x (by simp [hx])
    have hk := utf8EncodeChar_length_pos c
    have hne : utf8EncodeChar c ++ utf8Encode cs ≠ [] := by
      intro hcontra
      have hlen := congrArg List.length hcontra
      rw [List.length_append, List.length_nil] at hlen
      omega
    rw [utf8Encode_cons] at hf ⊢
    simp only [List.length_append] at hf
    cases fuel with
    | zero => omega
    | succ fuel =>
      rw [utf8DecodeLoop_succ, if_neg hne]
      simp only [utf8DecodeChar?_encode c hc (utf8Encode cs), List.drop_left,
        ih hcs fuel (by omega)]

theorem utf8Decode_encode (cs : List Nat) (h : ∀ c ∈ cs, ScalarValue c) :
    utf8Decode (utf8Encode cs) = some cs :=
  utf8DecodeLoop_encode cs h _ le_rfl

theorem utf8DecodeChar?_sound {l : List Nat} {c k : Nat}
    (h : utf8DecodeChar? l = some (c, k)) :
    ScalarValue c ∧ 1 ≤ k ∧ utf8EncodeChar c ++ l.drop k = l := by
  cases l with
  | nil => simp [utf8DecodeChar?] at h
  | cons b0 rest =>
    simp only [utf8DecodeChar?] at h
    by_cases ha : b0 < 0x80
    · rw [if_pos ha] at h
      obtain ⟨rfl, rfl⟩ : b0 = c ∧ 1 = k := by
        simpa [eq_comm] using h
      refine ⟨⟨by omega, by omega⟩, le_rfl, ?_⟩
      rw [utf8EncodeChar, if_pos ha]
      simp
    · rw [if_neg ha] at h
      by_cases hb : b0 < 0xC2
      · simp [if_pos hb] at h
      · rw [if_neg hb] at h
        by_cases hc2 : b0 < 0xE0
        · rw [if_pos hc2] at h
          cases rest with
          | nil => simp at h
          | cons b1 rest' =>
            simp only [] at h
            by_cases hcont : 0x80 ≤ b1 ∧ b1 < 0xC0
            · rw [if_pos hcont] at h
              obtain ⟨rfl, rfl⟩ : (b0 - 0xC0) * 64 + (b1 - 0x80) = c ∧ 2 = k := by
                simpa [eq_comm] using h
              refine ⟨⟨by omega, by omega⟩, by omega, ?_⟩
              rw [utf8EncodeChar, if_neg (by omega), if_pos (by omega)]
              simp only [List.drop_succ_cons, List.drop_zero, List.cons_append,
                List.nil_append, List.cons.injEq]
              refine ⟨by omega, by omega, trivial⟩
            · simp [if_neg hcont] at h
        · rw [if_neg hc2] at h
          by_cases hc3 : b0 < 0xF0
          · rw [if_pos hc3] at h
            cases rest with
            | nil => simp at h
            | cons b1 rest1 =>
            cases rest1 with
            | nil => simp at h
            | cons b2 rest' =>
            simp only [] at h
            by_cases hcont : 0x80 ≤ b1 ∧ b1 < 0xC0 ∧ 0x80 ≤ b2 ∧ b2 < 0xC0
            · rw [if_pos hcont] at h
              by_cases hval : 0x800 ≤ (b0 - 0xE0) * 4096 + (b1 - 0x80) * 64 + (b2 - 0x80) ∧
                  ¬(0xD800 ≤ (b0 - 0xE0) * 4096 + (b1 - 0x80) * 64 + (b2 - 0x80) ∧
                    (b0 - 0xE0) * 4096 + (b1 - 0x80) * 64 + (b2 - 0x80) < 0xE000)
              · rw [if_pos hval] at h
                obtain ⟨rfl, rfl⟩ :
                    (b0 - 0xE0) * 4096 + (b1 - 0x80) * 64 + (b2 - 0x80) = c ∧ 3 = k := by
                  simpa [eq_comm] using h
                refine ⟨⟨by omega, by omega⟩, by omega, ?_⟩
                rw [utf8EncodeChar, if_neg (by omega), if_neg (by omega), if_pos (by omega)]
                simp only [List.drop_succ_cons, List.drop_zero, List.cons_append,
                  List.nil_append, List.cons.injEq]
                refine ⟨by omega, by omega, by omega, trivial⟩
              · rw [if_neg hval] at h; simp at h
            · simp [if_neg hcont] at h
          · by_cases hc4 : b0 < 0xF5
            · rw [if_neg hc3, if_pos hc4] at h
              cases rest with
              | nil => simp at h
              | cons b1 rest1 =>
              cases rest1 with
              | nil => simp at h
              | cons b2 rest2 =>
              cases rest2 with
              | nil => simp at h
              | cons b3 rest' =>
              simp only [] at h
              by_cases hcont : 0x80 ≤ b1 ∧ b1 < 0xC0 ∧ 0x80 ≤ b2 ∧ b2 < 0xC0 ∧
                  0x80 ≤ b3 ∧ b3 < 0xC0
              · rw [if_pos hcont] at h
                by_cases hval : 0x10000 ≤ (b0 - 0xF0) * 262144 + (b1 - 0x80) * 4096 +
                    (b2 - 0x80) * 64 + (b3 - 0x80) ∧
                    (b0 - 0xF0) * 262144 + (b1 - 0x80) * 4096 +
                    (b2 - 0x80) * 64 + (b3 - 0x80) < 0x110000
                · rw [if_pos hval] at h
                  obtain ⟨rfl, rfl⟩ :
                      (b0 - 0xF0) * 262144 + (b1 - 0x80) * 4096 +
                        (b2 - 0x80) * 64 + (b3 - 0x80) = c ∧ 4 = k := by
                    simpa [eq_comm] using h
                  refine ⟨⟨by omega, by omega⟩, by omega, ?_⟩
                  rw [utf8EncodeChar, if_neg (by omega), if_neg (by omega),
                    if_neg (by omega)]
                  simp only [List.drop_succ_cons, List.drop_zero, List.cons_append,
                    List.nil_append, List.cons.injEq]
                  refine ⟨by omega, by omega, by omega, by omega, trivial⟩
                · rw [if_neg hval] at h; simp at h
              · simp [if_neg hcont] at h
            · rw [if_neg hc3, if_neg hc4] at h; simp at h

theorem utf8DecodeLoop_sound :
    ∀ (fuel : Nat) (l : List Nat) (cs : List Nat),
      utf8DecodeLoop fuel l = some cs →
      (∀ c ∈ cs, ScalarValue c) ∧ utf8Encode cs = l := by
  intro fuel
  induction fuel with
  | zero =>
    intro l cs h
    rw [show utf8DecodeLoop 0 l = if l = [] then some [] else none from rfl] at h
    split_ifs at h with hl
    · obtain rfl : ([] : List Nat) = cs := by simpa [eq_comm] using h
      subst hl
      simp [utf8Encode]
  | succ fuel ih =>
    intro l cs h
    rw [utf8DecodeLoop_succ] at h
    split_ifs at h with hl
    · obtain rfl : ([] : List Nat) = cs := by simpa [eq_comm] using h
      subst hl
      simp [utf8Encode]
    · cases hdc : utf8DecodeChar? l with
      | none => rw [hdc] at h; simp at h
      | some ck =>
        obtain ⟨c, k⟩ := ck
        rw [hdc] at h
        simp only [] at h
        cases hloop : utf8DecodeLoop fuel (l.drop k) with
        | none => rw [hloop] at h; simp at h
        | some cs' =>
          rw [hloop] at h
          simp only [] at h
          obtain rfl : c :: cs' = cs := by simpa [eq_comm] using h
          obtain ⟨hsv, h1k, henc⟩ := utf8DecodeChar?_sound hdc
          obtain ⟨hall, hrec⟩ := ih (l.drop k) cs' hloop
          refine ⟨?_, ?_⟩
          · intro x hx
            rcases List.mem_cons.mp hx with rfl | hx'
            · exact hsv
            · exact hall x hx'
          · rw [utf8Encode, hrec, henc]

theorem utf8Decode_sound {l cs : List Nat} (h : utf8Decode l = some cs) :
    (∀ c ∈ cs, ScalarValue c) ∧ utf8Encode cs = l :=
  utf8DecodeLoop_sound l.length l cs h

/-- `utf8Decode` fails exactly on the byte lists that are not the UTF-8
encoding of any scalar-value sequence. -/
theorem utf8Decode_eq_none_iff (l : List Nat) :
    utf8Decode l = none ↔ ¬∃ cs, (∀ c ∈ cs, ScalarValue c) ∧ l = utf8Encode cs := by
  constructor
  · rintro hnone ⟨cs, hall, rfl⟩
    rw [utf8Decode_encode cs hall] at hnone
    exact Option.noConfusion hnone
  · intro hnex
    cases hdec : utf8Decode l with
    | none => rfl
    | some cs =>
      obtain ⟨hall, henc⟩ := utf8Decode_sound hdec
      exact absurd ⟨cs, hall, henc.symm⟩ hnex

/-! ## Address codec lemmas (C7) -/

set_option maxRecDepth 4096 in
theorem natOfBits_byteToBits : ∀ b < 256, natOfBits (byteToBits b) = b := by decide

theorem bits5_nat5 : ∀ b1 b2 b3 b4 b5 : Bool,
    bits5 (nat5 b1 b2 b3 b4 b5) = [b1, b2, b3, b4, b5] := by decide

theorem nat5_lt : ∀ b1 b2 b3 b4 b5 : Bool, nat5 b1 b2 b3 b4 b5 < 32 := by decide

set_option maxRecDepth 4096 in
theorem bech32CharAt_inj :
    ∀ a < 32, ∀ b < 32, bech32CharAt a = bech32CharAt b → a = b := by decide

theorem bytesToBits_length (l : List Nat) :
    (bytesToBits l).length = 8 * l.length := by
  induction l with
  | nil => rfl
  | cons b bs ih => simp [bytesToBits, byteToBits, ih]; omega

theorem group5_length (l : List Bool) :
    (group5 l).length = (l.length + 4) / 5 := by
  induction l using group5.induct <;> simp [group5, *] <;> omega

theorem group5_mem_lt (l : List Bool) : ∀ g ∈ group5 l, g < 32 := by
  induction l using group5.induct with
  | case1 b1 b2 b3 b4 b5 rest ih =>
    intro g hg
    rcases List.mem_cons.mp hg with rfl | hg'
    · exact nat5_lt b1 b2 b3 b4 b5
    · exact ih g hg'
  | case2 => intro g hg; simp [group5] at hg
  | case3 b1 => intro g hg; simp [group5] at hg; subst hg; exact nat5_lt ..
  | case4 b1 b2 => intro g hg; simp [group5] at hg; subst hg; exact nat5_lt ..
  | case5 b1 b2 b3 => intro g hg; simp [group5] at hg; subst hg; exact nat5_lt ..
  | case6 b1 b2 b3 b4 => intro g hg; simp [group5] at hg; subst hg; exact nat5_lt ..

theorem bitsOfGroups_group5 (l : List Bool) :
    bitsOfGroups (group5 l) = l ++ List.replicate ((5 - l.length % 5) % 5) false := by
  induction l using group5.induct with
  | case1 b1 b2 b3 b4 b5 rest ih =>
    rw [group5, bitsOfGroups, bits5_nat5, ih]
    have hmod : (rest.length + 5) % 5 = rest.length % 5 := Nat.add_mod_right _ _
    simp [hmod]
  | case2 => rfl
  | case3 b1 => rw [group5, bitsOfGroups, bits5_nat5]; rfl
  | case4 b1 b2 => rw [group5, bitsOfGroups, bits5_nat5]; rfl
  | case5 b1 b2 b3 => rw [group5, bitsOfGroups, bits5_nat5]; rfl
  | case6 b1 b2 b3 b4 => rw [group5, bitsOfGroups, bits5_nat5]; rfl

theorem group5_inj {l1 l2 : List Bool} (hlen : l1.length = l2.length)
    (h : group5 l1 = group5 l2) : l1 = l2 := by
  have h1 := bitsOfGroups_group5 l1
  have h2 := bitsOfGroups_group5 l2
  rw [h, h2, hlen] at h1
  exact (List.append_inj h1.symm hlen).1

theorem bytesToBits_inj {l1 l2 : List Nat}
    (hb1 : ∀ b ∈ l1, b < 256) (hb2 : ∀ b ∈ l2, b < 256)
    (hlen : l1.length = l2.length)
    (h : bytesToBits l1 = bytesToBits l2) : l1 = l2 := by
  induction l1 generalizing l2 with
  | nil =>
    cases l2 with
    | nil => rfl
    | cons b bs => simp at hlen
  | cons a as ih =>
    cases l2 with
    | nil => simp at hlen
    | cons b bs =>
      rw [bytesToBits, bytesToBits] at h
      have hlen8 : (byteToBits a).length = (byteToBits b).length := by
        simp [byteToBits]
      obtain ⟨hhead, htail⟩ := List.append_inj h hlen8
      have ha : a < 256 := hb1 a (by simp)
      have hb : b < 256 := hb2 b (by simp)
      have : a = b := by
        have := congrArg natOfBits hhead
        rwa [natOfBits_byteToBits a ha, natOfBits_byteToBits b hb] at this
      subst this
      have : as = bs := by
        refine ih (fun x hx => hb1 x (by simp [hx])) (fun x hx => hb2 x (by simp [hx]))
          (by simpa using hlen) htail
      rw [this]

theorem map_bech32CharAt_inj {l1 l2 : List Nat}
    (h1 : ∀ x ∈ l1, x < 32) (h2 : ∀ x ∈ l2, x < 32)
    (h : l1.map bech32CharAt = l2.map bech32CharAt) : l1 = l2 := by
  induction l1 generalizing l2 with
  | nil =>
    cases l2 with
    | nil => rfl
    | cons b bs => simp at h
  | cons a as ih =>
    cases l2 with
    | nil => simp at h
    | cons b bs =>
      simp only [List.map_cons, List.cons.injEq] at h
      have ha : a = b :=
        bech32CharAt_inj a (h1 a (by simp)) b (h2 b (by simp)) h.1
      subst ha
      rw [ih (fun x hx => h1 x (by simp [hx])) (fun x hx => h2 x (by simp [hx])) h.2]

theorem convertbits_length_32 {k : List Nat} (h : k.length = 32) :
    (convertbits k).length = 52 := by
  rw [convertbits, group5_length, bytesToBits_length, h]

/-- C7: the address codec is total by construction (it is a plain function
on any 32-byte list), always yields a string starting with the fixed
human-readable part `claw` and separator `1`, and is injective on 32-byte
inputs: two different public keys always render as different strings. -/
theorem pubkey_to_bech32_spec (k1 k2 : List Nat)
    (hl1 : k1.length = 32) (hl2 : k2.length = 32)
    (hb1 : ∀ b ∈ k1, b < 256) (hb2 : ∀ b ∈ k2, b < 256) :
    (pubkey_to_bech32 k1).toList.take 5 = ['c', 'l', 'a', 'w', '1'] ∧
    (pubkey_to_bech32 k1 = pubkey_to_bech32 k2 → k1 = k2) := by
  constructor
  · rfl
  · intro h
    have hdata := congrArg String.data h
    simp only [pubkey_to_bech32, bech32_encode, List.append_assoc] at hdata
    have hdata2 := List.append_cancel_left hdata
    have hmap : (convertbits k1 ++ bech32CreateChecksum ("claw".toList.map Char.toNat)
          (convertbits k1)).map bech32CharAt =
        (convertbits k2 ++ bech32CreateChecksum ("claw".toList.map Char.toNat)
          (convertbits k2)).map bech32CharAt := by
      have := congrArg List.tail hdata2
      simpa using this
    rw [List.map_append, List.map_append] at hmap
    have hlenmap : ((convertbits k1).map bech32CharAt).length =
        ((convertbits k2).map bech32CharAt).length := by
      simp [convertbits_length_32 hl1, convertbits_length_32 hl2]
    have hgroups : (convertbits k1).map bech32CharAt =
        (convertbits k2).map bech32CharAt :=
      (List.append_inj hmap hlenmap).1
    have hconv : convertbits k1 = convertbits k2 :=
      map_bech32CharAt_inj (fun g hg => group5_mem_lt _ g hg)
        (fun g hg => group5_mem_lt _ g hg) hgroups
    have hbits : bytesToBits k1 = bytesToBits k2 :=
      group5_inj (by rw [bytesToBits_length, bytesToBits_length, hl1, hl2]) hconv
    exact bytesToBits_inj hb1 hb2 (by rw [hl1, hl2]) hbits

/-- C7 witness: two concrete distinct keys. -/
theorem pubkey_to_bech32_spec_witness :
    (List.replicate 32 0 : List Nat).length = 32 ∧
    (1 :: List.replicate 31 0 : List Nat).length = 32 ∧
    (pubkey_to_bech32 (List.replicate 32 0)).toList.take 5 = ['c', 'l', 'a', 'w', '1'] ∧
    (pubkey_to_bech32 (List.replicate 32 0) = pubkey_to_bech32 (1 :: List.replicate 31 0) →
      (List.replicate 32 0 : List Nat) = 1 :: List.replicate 31 0) := by
  have h := pubkey_to_bech32_spec (List.replicate 32 0) (1 :: List.replicate 31 0)
    (by decide) (by decide) (by decide) (by decide)
  exact ⟨by decide, by decide, h.1, h.2⟩

/-! ## Nested text decoding (C6) -/

theorem decode_nested_buffer_drop {data : List Nat} {off : Nat} {cs rest : List Nat}
    (hcs : ∀ c ∈ cs, ScalarValue c)
    (h : data.drop off = encodeNestedBuffer cs ++ rest)
    (hlen : (utf8Encode cs).length < 2 ^ 32) :
    decode_nested_buffer data off = .ok (cs, off + (encodeNestedBuffer cs).length) := by
  have hlen' : (utf8Encode cs).length < 256 ^ 4 := lt_of_lt_of_eq hlen (by norm_num)
  have h1 : data.drop off = beBytes 4 (utf8Encode cs).length ++ (utf8Encode cs ++ rest) := by
    simpa [encodeNestedBuffer, List.append_assoc] using h
  have hL : pySlice data off 4 = beBytes 4 (utf8Encode cs).length :=
    pySlice_of_drop _ _ h1 (beBytes_length 4 _)
  have hd4 : data.drop (off + 4) = utf8Encode cs ++ rest := by
    have := drop_shift (beBytes 4 (utf8Encode cs).length) (utf8Encode cs ++ rest) h1
    rwa [beBytes_length] at this
  have hV : pySlice data (off + 4) (utf8Encode cs).length = utf8Encode cs :=
    pySlice_of_drop _ _ hd4 rfl
  simp only [decode_nested_buffer, hL, beToNat_beBytes_of_lt hlen', hV,
    utf8Decode_encode cs hcs]
  simp [encodeNestedBuffer, beBytes_length, Nat.add_assoc]

/-- C6: round-trip and error behaviour of the nested text decoder.  For
every scalar-value sequence, decoding its length-framed UTF-8 encoding
returns exactly that text (no substitution); and for every byte list `b`,
decoding the length-framed buffer fails with `invalidUtf8` exactly when
`b` is not the UTF-8 encoding of any scalar-value sequence.  (The decoder
is a total Lean function, so it cannot panic.) -/
theorem decode_nested_buffer_utf8_spec (cs : List Nat)
    (hcs : ∀ c ∈ cs, ScalarValue c) (hlen : (utf8Encode cs).length < 2 ^ 32) :
    decode_nested_buffer (beBytes 4 (utf8Encode cs).length ++ utf8Encode cs) 0 =
      .ok (cs, 4 + (utf8Encode cs).length) ∧
    ∀ b : List Nat, b.length < 2 ^ 32 →
      (decode_nested_buffer (beBytes 4 b.length ++ b) 0 = .error .invalidUtf8 ↔
        ¬∃ cs2, (∀ c ∈ cs2, ScalarValue c) ∧ b = utf8Encode cs2) := by
  constructor
  · have h : (encodeNestedBuffer cs).drop 0 = encodeNestedBuffer cs ++ [] := by simp
    have := decode_nested_buffer_drop hcs h hlen
    simpa [encodeNestedBuffer, beBytes_length] using this
  · intro b hb
    have hb' : b.length < 256 ^ 4 := lt_of_lt_of_eq hb (by norm_num)
    have hdrop : (beBytes 4 b.length ++ b).drop 0 =
        beBytes 4 b.length ++ (b ++ []) := by simp
    have hL : pySlice (beBytes 4 b.length ++ b) 0 4 = beBytes 4 b.length :=
      pySlice_of_drop _ _ hdrop (beBytes_length 4 _)
    have hd4 : (beBytes 4 b.length ++ b).drop (0 + 4) = b ++ [] := by
      have := drop_shift (beBytes 4 b.length) (b ++ []) hdrop
      rwa [beBytes_length] at this
    have hV : pySlice (beBytes 4 b.length ++ b) (0 + 4) b.length = b :=
      pySlice_of_drop _ _ hd4 rfl
    simp only [decode_nested_buffer, hL, beToNat_beBytes_of_lt hb', hV]
    rw [← utf8Decode_eq_none_iff b]
    cases hdec : utf8Decode b with
    | none => simp
    | some cs2 => simp

/-- C6 witness: a mixed-width text (1-, 2-, 3- and 4-byte characters)
round-trips, and the instantiated error equivalence for a concrete
buffer. -/
theorem decode_nested_buffer_utf8_spec_witness :
    (∀ c ∈ [72, 955, 20013, 66376], ScalarValue c) ∧
    (utf8Encode [72, 955, 20013, 66376]).length < 2 ^ 32 ∧
    decode_nested_buffer
        (beBytes 4 (utf8Encode [72, 955, 20013, 66376]).length ++
          utf8Encode [72, 955, 20013, 66376]) 0 =
      .ok ([72, 955, 20013, 66376], 4 + (utf8Encode [72, 955, 20013, 66376]).length) ∧
    ∀ b : List Nat, b.length < 2 ^ 32 →
      (decode_nested_buffer (beBytes 4 b.length ++ b) 0 = .error .invalidUtf8 ↔
        ¬∃ cs2, (∀ c ∈ cs2, ScalarValue c) ∧ b = utf8Encode cs2) := by
  have h := decode_nested_buffer_utf8_spec [72, 955, 20013, 66376] (by decide) (by decide)
  exact ⟨by decide, by decide, h.1, h.2⟩

/-! ## C8: cursor discipline of the nested decode primitives -/

/-- C8 counterexample: the claim asserts the returned offset never exceeds
the buffer length, for every buffer and offset.  On the empty buffer the
nested u64 decoder still returns offset 8, which exceeds the length 0. -/
theorem nested_offset_bound_counterexample :
    ¬((decode_nested_u64 ([] : List Nat) 0).2 ≤ ([] : List Nat).length) := by
  decide

/-- C8 (amended): every nested decode primitive advances the cursor by
exactly the bytes its field occupies — 8 for u64, 4 + the announced length
for BigUint and text, 32 for address, 1 for bool — with no gaps and no
overlaps; and the returned offset stays within the buffer provided the
read itself fits in the buffer (without that proviso the source advances
the cursor past the end, see the counterexample). -/
theorem nested_offset_discipline (data : List Nat) (off : Nat) :
    ((decode_nested_u64 data off).2 = off + 8 ∧
      (off + 8 ≤ data.length → (decode_nested_u64 data off).2 ≤ data.length)) ∧
    ((decode_nested_biguint data off).2 = off + 4 + beToNat (pySlice data off 4) ∧
      (off + 4 + beToNat (pySlice data off 4) ≤ data.length →
        (decode_nested_biguint data off).2 ≤ data.length)) ∧
    (∀ t o2, decode_nested_buffer data off = .ok (t, o2) →
      o2 = off + 4 + beToNat (pySlice data off 4) ∧
      (off + 4 + beToNat (pySlice data off 4) ≤ data.length → o2 ≤ data.length)) ∧
    ((decode_nested_address data off).2 = off + 32 ∧
      (off + 32 ≤ data.length → (decode_nested_address data off).2 ≤ data.length)) ∧
    (∀ b o2, decode_nested_bool data off = .ok (b, o2) →
      o2 = off + 1 ∧ (off + 1 ≤ data.length → o2 ≤ data.length)) := by
  refine ⟨⟨rfl, fun h => h⟩, ⟨by simp [decode_nested_biguint, Nat.add_assoc], ?_⟩,
    ?_, ⟨rfl, fun h => h⟩, ?_⟩
  · intro h
    simpa [decode_nested_biguint, Nat.add_assoc] using h
  · intro t o2 h
    rw [decode_nested_buffer] at h
    rcases hdec : utf8Decode (pySlice data (off + 4) (beToNat (pySlice data off 4)))
      with _ | text
    · rw [hdec] at h
      exact absurd h (by simp)
    · rw [hdec] at h
      simp only [Except.ok.injEq, Prod.mk.injEq] at h
      obtain ⟨-, rfl⟩ := h
      exact ⟨by omega, fun hle => by omega⟩
  · intro b o2 h
    rw [decode_nested_bool] at h
    rcases hget : data.get? off with _ | v
    · rw [hget] at h
      exact absurd h (by simp)
    · rw [hget] at h
      simp only [Except.ok.injEq, Prod.mk.injEq] at h
      obtain ⟨-, rfl⟩ := h
      exact ⟨rfl, fun hle => hle⟩

/-- C8 witness: the amended discipline instantiated on a concrete buffer
with every implication discharged. -/
theorem nested_offset_discipline_witness :
    (decode_nested_u64 (List.replicate 64 0) 0).2 = 8 ∧
    (decode_nested_u64 (List.replicate 64 0) 0).2 ≤ 64 ∧
    (decode_nested_biguint (List.replicate 64 0) 0).2 = 4 ∧
    (decode_nested_biguint (List.replicate 64 0) 0).2 ≤ 64 ∧
    (decode_nested_address (List.replicate 64 0) 0).2 = 32 ∧
    (decode_nested_address (List.replicate 64 0) 0).2 ≤ 64 := by
  have h := nested_offset_discipline (List.replicate 64 0) 0
  refine ⟨?_, ?_, ?_, ?_, ?_, ?_⟩
  · simpa using h.1.1
  · exact le_trans (le_of_eq h.1.1) (by decide)
  · have := h.2.1.1
    simpa using this
  · exact le_trans (le_of_eq h.2.1.1) (by decide)
  · simpa using h.2.2.2.1.1
  · exact le_trans (le_of_eq h.2.2.2.1.1) (by decide)

/-! ## C1, C4, C5, C10 -/

/-- C1: the claim says a nested u64 read past the buffer end fails with
`Truncated`.  The code has no `Truncated` error at all: on the 3-byte buffer
`[1, 2, 3]` it silently decodes the 3 available bytes to `0x010203 = 66051`
and still advances the cursor to 8, past the end of the buffer.  This
contradicts the spec's explicit requirement ("never silently truncate or
read past the end"), so the code, not the claim, is wrong. -/
theorem decode_nested_u64_silently_truncates :
    decode_nested_u64 [1, 2, 3] 0 = (66051, 8) ∧
    ([1, 2, 3] : List Nat).length < 0 + 8 := by
  constructor
  · rfl
  · decide

/-- C4: round-trip of the nested u64 decoder against the 8-byte big-endian
encoding: for every `n < 2 ^ 64`, decoding `beBytes 8 n` at offset 0
returns the value `n` and the new offset 8. -/
theorem decode_nested_u64_roundtrip (n : Nat) (hn : n < 2 ^ 64) :
    decode_nested_u64 (beBytes 8 n) 0 = (n, 8) := by
  have h : (beBytes 8 n).drop 0 = beBytes 8 n ++ [] := by simp
  simpa using decode_nested_u64_drop h hn

/-- C4 witness: the round-trip at the maximal u64 value. -/
theorem decode_nested_u64_roundtrip_witness :
    2 ^ 64 - 1 < 2 ^ 64 ∧ decode_nested_u64 (beBytes 8 (2 ^ 64 - 1)) 0 = (2 ^ 64 - 1, 8) :=
  ⟨by norm_num, decode_nested_u64_roundtrip (2 ^ 64 - 1) (by norm_num)⟩

/-- C5: round-trip of the nested BigUint decoder: decoding a 4-byte
big-endian length followed by the minimal big-endian bytes of `v`
returns `v` (the hypothesis only rules out values whose minimal encoding
cannot fit a 4-byte length); and the zero-length buffer (the encoding of 0,
a length word of 0 followed by no value bytes) decodes to 0. -/
theorem decode_nested_biguint_roundtrip (v : Nat)
    (hlen : (minBytes v).length < 2 ^ 32) :
    decode_nested_biguint (beBytes 4 (minBytes v).length ++ minBytes v) 0 =
      (v, 4 + (minBytes v).length) ∧
    decode_nested_biguint [0, 0, 0, 0] 0 = (0, 4) := by
  constructor
  · have h : (encodeNestedBiguint v).drop 0 = encodeNestedBiguint v ++ [] := by simp
    have := decode_nested_biguint_drop h hlen
    simpa [encodeNestedBiguint, beBytes_length] using this
  · rfl

/-- C5 witness: a large (multi-limb) value and implicitly the zero case. -/
theorem decode_nested_biguint_roundtrip_witness :
    (minBytes (2 ^ 130 + 7)).length < 2 ^ 32 ∧
    decode_nested_biguint
        (beBytes 4 (minBytes (2 ^ 130 + 7)).length ++ minBytes (2 ^ 130 + 7)) 0 =
      (2 ^ 130 + 7, 4 + (minBytes (2 ^ 130 + 7)).length) ∧
    decode_nested_biguint [0, 0, 0, 0] 0 = (0, 4) := by
  refine ⟨by decide, decode_nested_biguint_roundtrip (2 ^ 130 + 7) (by decide)⟩

/-- C10: `decode_top_level_u64` interprets the whole buffer as a big-endian
integer with no width or range check: the empty buffer decodes to 0, each
appended byte shifts the value by one byte (the big-endian recurrence over
the entire buffer), and a 9-byte buffer can decode to `2 ^ 64` and beyond —
the result is not confined to the u64 range. -/
theorem decode_top_level_u64_unbounded :
    decode_top_level_u64 [] = 0 ∧
    (∀ l b, decode_top_level_u64 (l ++ [b]) = 256 * decode_top_level_u64 l + b) ∧
    decode_top_level_u64 [1, 0, 0, 0, 0, 0, 0, 0, 0] = 2 ^ 64 ∧
    2 ^ 64 - 1 < decode_top_level_u64 (List.replicate 9 255) := by
  refine ⟨rfl, ?_, by decide, by decide⟩
  intro l b
  exact beToNat_append_singleton l b

/-! ## Record decoder lemmas (C9, C3, C2) -/

theorem get?_of_drop {data : List Nat} {off b : Nat} {rest : List Nat}
    (h : data.drop off = b :: rest) : data.get? off = some b := by
  have h0 : (data.drop off).get? 0 = data.get? (off + 0) := List.get?_drop data off 0
  rw [h] at h0
  simpa using h0.symm

theorem decode_nested_address_drop {data : List Nat} {off : Nat} {pk rest : List Nat}
    (hl : pk.length = 32) (h : data.drop off = pk ++ rest) :
    decode_nested_address data off = (pubkey_to_bech32 pk, off + 32) := by
  rw [decode_nested_address, pySlice_of_drop pk rest h hl]

theorem decode_vote_record_drop {data : List Nat} {off : Nat} {voter : List Nat}
    {dir weight : Nat} {rest : List Nat}
    (hl : voter.length = 32) (hw : (minBytes weight).length < 2 ^ 32)
    (h : data.drop off = encodeVoteRecordFields voter dir weight ++ rest) :
    decode_vote_record data off =
      .ok ({ voter := pubkey_to_bech32 voter, direction := dirOfByte dir,
             weight := weight },
        off + (encodeVoteRecordFields voter dir weight).length) := by
  have h1 : data.drop off = voter ++ ([dir] ++ (encodeNestedBiguint weight ++ rest)) := by
    simpa [encodeVoteRecordFields, List.append_assoc] using h
  have haddr := decode_nested_address_drop hl h1
  have hd1 : data.drop (off + 32) = dir :: (encodeNestedBiguint weight ++ rest) := by
    have := drop_shift voter ([dir] ++ (encodeNestedBiguint weight ++ rest)) h1
    rw [hl] at this
    simpa using this
  have hget : data.get? (off + 32) = some dir := get?_of_drop hd1
  have hd2 : data.drop (off + 32 + 1) = encodeNestedBiguint weight ++ rest := by
    have h1d : data.drop (off + 32) = [dir] ++ (encodeNestedBiguint weight ++ rest) := by
      simpa using hd1
    have := drop_shift [dir] (encodeNestedBiguint weight ++ rest) h1d
    simpa using this
  have hbig := decode_nested_biguint_drop hd2 hw
  simp only [decode_vote_record, haddr, hget, hbig]
  simp only [Except.ok.injEq, Prod.mk.injEq]
  refine ⟨trivial, ?_⟩
  simp [encodeVoteRecordFields, encodeNestedBiguint, beBytes_length, hl]
  omega

/-- C9: decoding two concatenated VoteRecord encodings from one buffer —
the offset returned for the first record is exactly the byte length of its
encoding, and decoding again at that offset reproduces the second
record's fields (with the final offset at the end of the buffer). -/
theorem decode_vote_record_pair (v1 v2 : List Nat) (d1 d2 w1 w2 : Nat)
    (hl1 : v1.length = 32) (hl2 : v2.length = 32)
    (hw1 : (minBytes w1).length < 2 ^ 32) (hw2 : (minBytes w2).length < 2 ^ 32) :
    decode_vote_record
        (encodeVoteRecordFields v1 d1 w1 ++ encodeVoteRecordFields v2 d2 w2) 0 =
      .ok ({ voter := pubkey_to_bech32 v1, direction := dirOfByte d1, weight := w1 },
        (encodeVoteRecordFields v1 d1 w1).length) ∧
    decode_vote_record
        (encodeVoteRecordFields v1 d1 w1 ++ encodeVoteRecordFields v2 d2 w2)
        (encodeVoteRecordFields v1 d1 w1).length =
      .ok ({ voter := pubkey_to_bech32 v2, direction := dirOfByte d2, weight := w2 },
        (encodeVoteRecordFields v1 d1 w1).length +
          (encodeVoteRecordFields v2 d2 w2).length) := by
  constructor
  · have h : (encodeVoteRecordFields v1 d1 w1 ++ encodeVoteRecordFields v2 d2 w2).drop 0 =
        encodeVoteRecordFields v1 d1 w1 ++ encodeVoteRecordFields v2 d2 w2 := by simp
    simpa using decode_vote_record_drop hl1 hw1 h
  · have h : (encodeVoteRecordFields v1 d1 w1 ++ encodeVoteRecordFields v2 d2 w2).drop
        (encodeVoteRecordFields v1 d1 w1).length =
        encodeVoteRecordFields v2 d2 w2 ++ [] := by
      simp [List.drop_left]
    simpa using decode_vote_record_drop hl2 hw2 h

/-- C9 witness: two concrete records (yes-vote with a large weight, then a
no-vote with weight zero) decoded in sequence from one buffer. -/
theorem decode_vote_record_pair_witness :
    (List.replicate 32 7 : List Nat).length = 32 ∧
    (List.replicate 32 9 : List Nat).length = 32 ∧
    (minBytes (2 ^ 80 + 5)).length < 2 ^ 32 ∧
    (minBytes 0).length < 2 ^ 32 ∧
    decode_vote_record
        (encodeVoteRecordFields (List.replicate 32 7) 0 (2 ^ 80 + 5) ++
          encodeVoteRecordFields (List.replicate 32 9) 1 0) 0 =
      .ok ({ voter := pubkey_to_bech32 (List.replicate 32 7), direction := dirOfByte 0,
             weight := 2 ^ 80 + 5 },
        (encodeVoteRecordFields (List.replicate 32 7) 0 (2 ^ 80 + 5)).length) ∧
    decode_vote_record
        (encodeVoteRecordFields (List.replicate 32 7) 0 (2 ^ 80 + 5) ++
          encodeVoteRecordFields (List.replicate 32 9) 1 0)
        (encodeVoteRecordFields (List.replicate 32 7) 0 (2 ^ 80 + 5)).length =
      .ok ({ voter := pubkey_to_bech32 (List.replicate 32 9), direction := dirOfByte 1,
             weight := 0 },
        (encodeVoteRecordFields (List.replicate 32 7) 0 (2 ^ 80 + 5)).length +
          (encodeVoteRecordFields (List.replicate 32 9) 1 0).length) := by
  have h := decode_vote_record_pair (List.replicate 32 7) (List.replicate 32 9)
    0 1 (2 ^ 80 + 5) 0 (by decide) (by decide) (by decide) (by decide)
  exact ⟨by decide, by decide, by decide, by decide, h.1, h.2⟩

/-- C3: the status lookup maps bytes 0–5 to the six named variants, maps 6
(and every byte ≥ 6) to the explicit `Unknown` variant carrying the byte —
never an error and never a known variant — and `decode_proposal` renders a
status byte of 6 as `Unknown 6`. -/
theorem statusOfByte_spec :
    statusOfByte 0 = .Open ∧ statusOfByte 1 = .Passed ∧
    statusOfByte 2 = .Executable ∧ statusOfByte 3 = .Executed ∧
    statusOfByte 4 = .Failed ∧ statusOfByte 5 = .Cancelled ∧
    statusOfByte 6 = .Unknown 6 ∧
    (∀ b : Nat, 6 ≤ b → statusOfByte b = .Unknown b) ∧
    (decode_proposal (List.replicate 80 0 ++ 6 :: List.replicate 32 0) 0).map
        (fun r => r.1.status) = .ok (.Unknown 6) := by
  refine ⟨rfl, rfl, rfl, rfl, rfl, rfl, rfl, ?_, by decide⟩
  intro b hb
  rw [statusOfByte, if_neg (by omega), if_neg (by omega), if_neg (by omega),
    if_neg (by omega), if_neg (by omega), if_neg (by omega)]

/-- C3 witness: the general `Unknown` clause instantiated at byte 200. -/
theorem statusOfByte_spec_witness : statusOfByte 200 = .Unknown 200 :=
  statusOfByte_spec.2.2.2.2.2.2.2.1 200 (by decide)

/-- C2: decoding the buffer formed by concatenating the 11 Proposal fields
in the specified order and widths reproduces every field value exactly:
the u64 fields, the two addresses (rendered through the address codec),
the UTF-8 description, the three BigUints, and the status byte through the
status table; the returned offset is the whole buffer's length. -/
theorem decode_proposal_roundtrip
    (idv : Nat) (proposer desc receiver : List Nat)
    (amount statusByte yesv nov created passed bulletin : Nat)
    (hid : idv < 2 ^ 64)
    (hlp : proposer.length = 32) (hlr : receiver.length = 32)
    (hdesc : ∀ c ∈ desc, ScalarValue c)
    (hdlen : (utf8Encode desc).length < 2 ^ 32)
    (hamt : (minBytes amount).length < 2 ^ 32)
    (hyes : (minBytes yesv).length < 2 ^ 32)
    (hno : (minBytes nov).length < 2 ^ 32)
    (hcr : created < 2 ^ 64) (hpa : passed < 2 ^ 64) (hbu : bulletin < 2 ^ 64) :
    decode_proposal (encodeProposalFields idv proposer desc receiver amount statusByte
        yesv nov created passed bulletin) 0 =
      .ok ({ id := idv, proposer := pubkey_to_bech32 proposer, description := desc,
             receiver := pubkey_to_bech32 receiver, amount := amount,
             status := statusOfByte statusByte, yes_votes := yesv, no_votes := nov,
             created_at := created, passed_at := passed, bulletin_post_id := bulletin },
        (encodeProposalFields idv proposer desc receiver amount statusByte yesv nov
            created passed bulletin).length) := by
  generalize hE : encodeProposalFields idv proposer desc receiver amount statusByte
    yesv nov created passed bulletin = data
  have h0 : data.drop 0 = beBytes 8 idv ++ (proposer ++ (encodeNestedBuffer desc ++
      (receiver ++ (encodeNestedBiguint amount ++ (statusByte ::
      (encodeNestedBiguint yesv ++ (encodeNestedBiguint nov ++ (beBytes 8 created ++
      (beBytes 8 passed ++ beBytes 8 bulletin))))))))) := by
    rw [← hE]
    simp [encodeProposalFields]
  have he1 := decode_nested_u64_drop h0 hid
  have hd1 : data.drop (0 + 8) = proposer ++ (encodeNestedBuffer desc ++
      (receiver ++ (encodeNestedBiguint amount ++ (statusByte ::
      (encodeNestedBiguint yesv ++ (encodeNestedBiguint nov ++ (beBytes 8 created ++
      (beBytes 8 passed ++ beBytes 8 bulletin)))))))) := by
    have := drop_shift _ _ h0
    rwa [beBytes_length] at this
  have he2 := decode_nested_address_drop hlp hd1
  have hd2 : data.drop (0 + 8 + 32) = encodeNestedBuffer desc ++
      (receiver ++ (encodeNestedBiguint amount ++ (statusByte ::
      (encodeNestedBiguint yesv ++ (encodeNestedBiguint nov ++ (beBytes 8 created ++
      (beBytes 8 passed ++ beBytes 8 bulletin))))))) := by
    have := drop_shift _ _ hd1
    rwa [hlp] at this
  have he3 := decode_nested_buffer_drop hdesc hd2 hdlen
  have hd3 : data.drop (0 + 8 + 32 + (encodeNestedBuffer desc).length) =
      receiver ++ (encodeNestedBiguint amount ++ (statusByte ::
      (encodeNestedBiguint yesv ++ (encodeNestedBiguint nov ++ (beBytes 8 created ++
      (beBytes 8 passed ++ beBytes 8 bulletin)))))) :=
    drop_shift _ _ hd2
  have he4 := decode_nested_address_drop hlr hd3
  have hd4 : data.drop (0 + 8 + 32 + (encodeNestedBuffer desc).length + 32) =
      encodeNestedBiguint amount ++ (statusByte ::
      (encodeNestedBiguint yesv ++ (encodeNestedBiguint nov ++ (beBytes 8 created ++
      (beBytes 8 passed ++ beBytes 8 bulletin))))) := by
    have := drop_shift _ _ hd3
    rwa [hlr] at this
  have he5 := decode_nested_biguint_drop hd4 hamt
  have hd5 : data.drop (0 + 8 + 32 + (encodeNestedBuffer desc).length + 32 +
      (encodeNestedBiguint amount).length) = statusByte ::
      (encodeNestedBiguint yesv ++ (encodeNestedBiguint nov ++ (beBytes 8 created ++
      (beBytes 8 passed ++ beBytes 8 bulletin)))) :=
    drop_shift _ _ hd4
  have hget : data.get? (0 + 8 + 32 + (encodeNestedBuffer desc).length + 32 +
      (encodeNestedBiguint amount).length) = some statusByte := get?_of_drop hd5
  have hd6 : data.drop (0 + 8 + 32 + (encodeNestedBuffer desc).length + 32 +
      (encodeNestedBiguint amount).length + 1) =
      encodeNestedBiguint yesv ++ (encodeNestedBiguint nov ++ (beBytes 8 created ++
      (beBytes 8 passed ++ beBytes 8 bulletin))) := by
    have hd5' : data.drop (0 + 8 + 32 + (encodeNestedBuffer desc).length + 32 +
        (encodeNestedBiguint amount).length) = [statusByte] ++
        (encodeNestedBiguint yesv ++ (encodeNestedBiguint nov ++ (beBytes 8 created ++
        (beBytes 8 passed ++ beBytes 8 bulletin)))) := by simpa using hd5
    have := drop_shift _ _ hd5'
    simpa using this
  have he6 := decode_nested_biguint_drop hd6 hyes
  have hd7 : data.drop (0 + 8 + 32 + (encodeNestedBuffer desc).length + 32 +
      (encodeNestedBiguint amount).length + 1 + (encodeNestedBiguint yesv).length) =
      encodeNestedBiguint nov ++ (beBytes 8 created ++
      (beBytes 8 passed ++ beBytes 8 bulletin)) :=
    drop_shift _ _ hd6
  have he7 := decode_nested_biguint_drop hd7 hno
  have hd8 : data.drop (0 + 8 + 32 + (encodeNestedBuffer desc).length + 32 +
      (encodeNestedBiguint amount).length + 1 + (encodeNestedBiguint yesv).length +
      (encodeNestedBiguint nov).length) =
      beBytes 8 created ++ (beBytes 8 passed ++ beBytes 8 bulletin) :=
    drop_shift _ _ hd7
  have he8 := decode_nested_u64_drop hd8 hcr
  have hd9 : data.drop (0 + 8 + 32 + (encodeNestedBuffer desc).length + 32 +
      (encodeNestedBiguint amount).length + 1 + (encodeNestedBiguint yesv).length +
      (encodeNestedBiguint nov).length + 8) =
      beBytes 8 passed ++ beBytes 8 bulletin := by
    have := drop_shift _ _ hd8
    rwa [beBytes_length] at this
  have he9 := decode_nested_u64_drop hd9 hpa
  have hd10 : data.drop (0 + 8 + 32 + (encodeNestedBuffer desc).length + 32 +
      (encodeNestedBiguint amount).length + 1 + (encodeNestedBiguint yesv).length +
      (encodeNestedBiguint nov).length + 8 + 8) =
      beBytes 8 bulletin ++ [] := by
    have := drop_shift _ _ hd9
    rw [beBytes_length] at this
    simpa using this
  have he10 := decode_nested_u64_drop hd10 hbu
  simp only [decode_proposal, he1, he2, he3, he4, he5, hget, he6, he7, he8, he9, he10]
  simp only [Except.ok.injEq, Prod.mk.injEq]
  refine ⟨by trivial, ?_⟩
  rw [← hE]
  simp [encodeProposalFields, encodeNestedBuffer, encodeNestedBiguint,
    List.length_append, beBytes_length, hlp, hlr]
  omega

/-- C2 witness: the round-trip at a minimal boundary instance (zero
amounts, empty description) and a maximal one (maximal u64 fields, a
multi-limb BigUint, multi-byte text, an unknown status byte). -/
theorem decode_proposal_roundtrip_witness :
    decode_proposal (encodeProposalFields 0 (List.replicate 32 0) []
        (List.replicate 32 0) 0 0 0 0 0 0 0) 0 =
      .ok ({ id := 0, proposer := pubkey_to_bech32 (List.replicate 32 0),
             description := [], receiver := pubkey_to_bech32 (List.replicate 32 0),
             amount := 0, status := statusOfByte 0, yes_votes := 0, no_votes := 0,
             created_at := 0, passed_at := 0, bulletin_post_id := 0 },
        (encodeProposalFields 0 (List.replicate 32 0) [] (List.replicate 32 0)
            0 0 0 0 0 0 0).length) ∧
    decode_proposal (encodeProposalFields (2 ^ 64 - 1) (List.replicate 32 255)
        [72, 101, 955, 20013, 66376] (List.replicate 32 1) (2 ^ 130) 6 (2 ^ 100) 3
        (2 ^ 64 - 1) (2 ^ 64 - 1) (2 ^ 64 - 1)) 0 =
      .ok ({ id := 2 ^ 64 - 1, proposer := pubkey_to_bech32 (List.replicate 32 255),
             description := [72, 101, 955, 20013, 66376],
             receiver := pubkey_to_bech32 (List.replicate 32 1),
             amount := 2 ^ 130, status := statusOfByte 6, yes_votes := 2 ^ 100,
             no_votes := 3, created_at := 2 ^ 64 - 1, passed_at := 2 ^ 64 - 1,
             bulletin_post_id := 2 ^ 64 - 1 },
        (encodeProposalFields (2 ^ 64 - 1) (List.replicate 32 255)
            [72, 101, 955, 20013, 66376] (List.replicate 32 1) (2 ^ 130) 6 (2 ^ 100) 3
            (2 ^ 64 - 1) (2 ^ 64 - 1) (2 ^ 64 - 1)).length) := by
  constructor
  · exact decode_proposal_roundtrip 0 (List.replicate 32 0) [] (List.replicate 32 0)
      0 0 0 0 0 0 0 (by decide) (by decide) (by decide) (by decide) (by decide)
      (by decide) (by decide) (by decide) (by decide) (by decide) (by decide)
  · exact decode_proposal_roundtrip (2 ^ 64 - 1) (List.replicate 32 255)
      [72, 101, 955, 20013, 66376] (List.replicate 32 1) (2 ^ 130) 6 (2 ^ 100) 3
      (2 ^ 64 - 1) (2 ^ 64 - 1) (2 ^ 64 - 1) (by decide) (by decide) (by decide)
      (by decide) (by decide) (by decide) (by decide) (by decide) (by decide)
      (by decide) (by decide)
